import Mathlib

/-!
Shallow embedding of the CVision resume-parser pipeline (src/app.py).

Python strings are modelled as `List Char` (sequences of Unicode code points,
matching Python's `str`).  The Python string primitives used by the program
(`in`, `endswith`, `split`, `splitlines`, `strip`, `replace`, slicing and
indexing) are embedded below, and the program's own functions
(`load_resume_docs`, `clean_text_block`, the response partitioning and the
display logic of `main`) are translated on top of them.  External effects
(Streamlit widgets, the temp-file write, the LLM call and the document
loaders) are modelled as event traces and oracle functions.
-/

namespace CVision

/-- Unicode code points of a Lean string literal, i.e. the Python `str` value. -/
def strL (s : String) : List Char := s.data

/-! ### Python string primitives -/

/-- Python `needle in hay` (substring containment) on code-point lists. -/
def pyIn (needle : List Char) : List Char → Bool
  | [] => needle.isEmpty
  | c :: rest => needle.isPrefixOf (c :: rest) || pyIn needle rest

/-- Python `s.endswith(suffix)`. -/
def pyEndsWith (tail s : List Char) : Bool := tail.isSuffixOf s

/-- Whether `sep` has a non-empty proper border (a strict prefix that is also
a suffix).  A separator without one cannot overlap itself, so its leftmost
occurrence in `a ++ sep ++ b` with `sep` not occurring in `a` is at `a`. -/
def hasProperBorder (sep : List Char) : Bool :=
  (List.range sep.length).any fun k =>
    decide (k ≠ 0) && decide (sep.take k = sep.drop (sep.length - k))

/-- First occurrence of `sep` in `s`: `some (before, after)` where `before` is
the text before the leftmost occurrence and `after` the text after it. -/
def splitFirst (sep : List Char) : List Char → Option (List Char × List Char)
  | [] => none
  | c :: rest =>
    if sep.isPrefixOf (c :: rest) then some ([], (c :: rest).drop sep.length)
    else
      match splitFirst sep rest with
      | none => none
      | some p => some (c :: p.1, p.2)

/-- Fuel-driven iteration of `splitFirst`; `s.length + 1` fuel is always
enough because each found occurrence strictly shrinks the remainder. -/
def pySplitFuel (sep : List Char) : Nat → List Char → List (List Char)
  | 0, s => [s]
  | n + 1, s =>
    match splitFirst sep s with
    | none => [s]
    | some p => p.1 :: pySplitFuel sep n p.2

/-- Python `s.split(sep)` for a non-empty separator: split on each
non-overlapping occurrence, left to right.  (Python raises for an empty
separator; the program only splits on non-empty literals.) -/
def pySplit (sep s : List Char) : List (List Char) :=
  if sep.isEmpty then [s] else pySplitFuel sep (s.length + 1) s

/-- Python `s.replace(old, new)` for non-empty `old`: equivalent to joining
`s.split(old)` with `new`. -/
def pyReplace (old new s : List Char) : List Char :=
  List.intercalate new (pySplit old s)

/-- Python whitespace (the code points stripped by `str.strip()`). -/
def pyIsSpace (c : Char) : Bool :=
  (0x9 ≤ c.toNat && c.toNat ≤ 0xd) || (0x1c ≤ c.toNat && c.toNat ≤ 0x20) ||
  c.toNat == 0x85 || c.toNat == 0xa0 || c.toNat == 0x1680 ||
  (0x2000 ≤ c.toNat && c.toNat ≤ 0x200a) || c.toNat == 0x2028 ||
  c.toNat == 0x2029 || c.toNat == 0x202f || c.toNat == 0x205f ||
  c.toNat == 0x3000

/-- Strip characters satisfying `p` from both ends of `s`. -/
def stripBy (p : Char → Bool) (s : List Char) : List Char :=
  ((s.dropWhile p).reverse.dropWhile p).reverse

/-- Python `s.strip()` (no argument: strips whitespace). -/
def pyStrip (s : List Char) : List Char := stripBy pyIsSpace s

/-- Python `s.strip(chars)`: strips any characters of `cs` from both ends. -/
def pyStripChars (cs s : List Char) : List Char :=
  stripBy (fun c => cs.contains c) s

/-- Python line-break code points recognised by `str.splitlines()`. -/
def isLineBreak (c : Char) : Bool :=
  (0xa ≤ c.toNat && c.toNat ≤ 0xd) || (0x1c ≤ c.toNat && c.toNat ≤ 0x1e) ||
  c.toNat == 0x85 || c.toNat == 0x2028 || c.toNat == 0x2029

/-- First line of `s` and the remainder after its line break (`\r\n` counts
as a single break). -/
def takeLine : List Char → List Char × List Char
  | [] => ([], [])
  | c :: rest =>
    if isLineBreak c then
      if c = '\r' then
        match rest with
        | c2 :: rest2 => if c2 = '\n' then ([], rest2) else ([], rest)
        | [] => ([], [])
      else ([], rest)
    else
      ((takeLine rest).1.cons c, (takeLine rest).2)

/-- Fuel-driven iteration of `takeLine`; `s.length` fuel is always enough. -/
def pySplitlinesFuel : Nat → List Char → List (List Char)
  | _, [] => []
  | 0, _ :: _ => []
  | n + 1, c :: rest =>
    (takeLine (c :: rest)).1 :: pySplitlinesFuel n (takeLine (c :: rest)).2

/-- Python `s.splitlines()`: a trailing line break produces no empty final
line, and the empty string has no lines. -/
def pySplitlines (s : List Char) : List (List Char) :=
  pySplitlinesFuel s.length s

/-- Python `l[i]` on a list: `IndexError` (modelled as `Except.error`) when
out of range. -/
def pyIndex (l : List (List Char)) (i : Nat) : Except Unit (List Char) :=
  if i < l.length then Except.ok (l.getD i []) else Except.error ()

/-! ### clean_text_block (src/app.py lines 94-99) -/

/-- The list comprehension of `clean_text_block`: strip `###` and `##`
everywhere, strip surrounding whitespace, split into lines, drop blank lines
and strip leading/trailing spaces, dashes and bullets from each kept line. -/
def cleanedLines (text : List Char) : List (List Char) :=
  ((pySplitlines (pyStrip (pyReplace (strL "##") [] (pyReplace (strL "###") [] text)))).filter
      fun l => !(pyStrip l).isEmpty).map (pyStripChars (strL " -•"))

/-- `clean_text_block`: the cleaned lines joined with a newline. -/
def cleanTextBlock (text : List Char) : List Char :=
  List.intercalate ['\n'] (cleanedLines text)

/-- The lines of a joined output string, as delimited by `'\n'`. -/
def linesOf (s : List Char) : List (List Char) := pySplit ['\n'] s

/-! ### Prompt builder (src/app.py lines 16-75 and 127-131) -/

/-- The part of `PROMPT_TEMPLATE` before the `text` placeholder. -/
def promptPart1 : List Char :=
  strL "\nYou are an expert resume parser and job match evaluator. \nGiven the resume text and job description, do two tasks:\n\n---\n\n### 1. Extract Resume Information\nPresent the resume details in a **professional Markdown layout** with sections:\n\n### 👤 Personal Details\n- **Name:** ...\n- **Email:** ...\n- **Phone:** ...\n- **LinkedIn:** ...\n\n### 🛠 Skills\n- Skill1, Skill2, Skill3\n\n### 🎓 Education\n- Degree | Institute | Year\n\n### 💼 Experience\n- Role at Company (Duration)\n- Short bullet point achievements\n\n### 📂 Projects\n- Project Name — short description\n\n### 🏅 Certifications\n- Certification Name — Issuer\n\n### 🌐 Languages\n- Language1, Language2\n\n---\n\n### 2. Compare Resume Skills with Job Description Skills\nIf job description is provided, add a section:\n\n### 🔍 Resume vs Job Description Skills\n- ✅ **Matching Skills:** list of skills found in both\n- ❌ **Missing Skills (JD requires but resume lacks):** list of missing skills\n- 💡 **Extra Skills (in resume but not in JD):** list of extra skills\n- 📊 **Match Score:** percentage of JD skills that appear in resume\n\nRules:\n- If no JD is provided, skip the comparison.\n- Use bullet points for clarity.\n- Keep it short, clean, and professional.\n\n---\n\nResume text:\n"

/-- The part of `PROMPT_TEMPLATE` between the `text` and `jd_text`
placeholders. -/
def promptPart2 : List Char := strL "\n\nJob description:\n"

/-- The part of `PROMPT_TEMPLATE` after the `jd_text` placeholder. -/
def promptPart3 : List Char := strL "\n"

/-- `prompt.format(text=..., jd_text=...)`: substitute both placeholder
values verbatim into the fixed template. -/
def formatPrompt (text jd_text : List Char) : List Char :=
  promptPart1 ++ text ++ promptPart2 ++ jd_text ++ promptPart3

/-- The sentinel substituted when no job description was supplied. -/
def noJdSentinel : List Char := strL "No JD provided"

/-- The caller's prompt construction (line 128-131): an empty (falsy) JD
string is replaced by the sentinel before formatting. -/
def buildPrompt (text jd : List Char) : List Char :=
  formatPrompt text (if jd.isEmpty then noJdSentinel else jd)

/-! ### Response partitioner (src/app.py lines 136-172) -/

/-- The literal comparison heading. -/
def comparisonHeading : List Char := strL "### 🔍 Resume vs Job Description Skills"

/-- Marker `✅` (U+2705). -/
def charCheck : Char := '✅'

/-- Marker `❌` (U+274C). -/
def charCross : Char := '❌'

/-- Marker `💡` (U+1F4A1). -/
def charBulb : Char := '💡'

/-- Marker `📊` (U+1F4CA). -/
def charChart : Char := '📊'

/-- Lines 137-140: `content.split(heading, 1)` under an `in` guard; without
the heading the whole response is the resume info and the comparison is
`None`. -/
def partitionContent (content : List Char) : List Char × Option (List Char) :=
  if pyIn comparisonHeading content then
    match splitFirst comparisonHeading content with
    | some p => (p.1, some p.2)
    | none => (content, none)
  else (content, none)

/-- `comparison.split(c)[1]` (total version; the code only evaluates it under
an `if c in comparison` guard, which makes index 1 exist). -/
def splitAfter (c : Char) (s : List Char) : List Char :=
  (pySplit [c] s).getD 1 []

/-- `s.split(c)[0]`. -/
def splitBefore (c : Char) (s : List Char) : List Char :=
  (pySplit [c] s).getD 0 []

/-- `comparison.split("✅")[1].split("❌")[0]` (line 152). -/
def matchedSection (comparison : List Char) : List Char :=
  splitBefore charCross (splitAfter charCheck comparison)

/-- `comparison.split("❌")[1].split("💡")[0]` (line 158). -/
def missingSection (comparison : List Char) : List Char :=
  splitBefore charBulb (splitAfter charCross comparison)

/-- `comparison.split("💡")[1].split("📊")[0]` (line 164). -/
def extraSection (comparison : List Char) : List Char :=
  splitBefore charChart (splitAfter charBulb comparison)

/-- `comparison.split("📊")[1]` (line 170). -/
def scoreSection (comparison : List Char) : List Char :=
  splitAfter charChart comparison

/-- `comparison.split(c)[1]` with Python's `IndexError` made explicit. -/
def splitAfterE (c : Char) (s : List Char) : Except Unit (List Char) :=
  pyIndex (pySplit [c] s) 1

/-- `s.split(c)[0]` with Python's `IndexError` made explicit. -/
def splitBeforeE (c : Char) (s : List Char) : Except Unit (List Char) :=
  pyIndex (pySplit [c] s) 0

/-- Exception-explicit version of `matchedSection`. -/
def matchedSectionE (comparison : List Char) : Except Unit (List Char) :=
  match splitAfterE charCheck comparison with
  | Except.error e => Except.error e
  | Except.ok t => splitBeforeE charCross t

/-- Exception-explicit version of `missingSection`. -/
def missingSectionE (comparison : List Char) : Except Unit (List Char) :=
  match splitAfterE charCross comparison with
  | Except.error e => Except.error e
  | Except.ok t => splitBeforeE charBulb t

/-- Exception-explicit version of `extraSection`. -/
def extraSectionE (comparison : List Char) : Except Unit (List Char) :=
  match splitAfterE charBulb comparison with
  | Except.error e => Except.error e
  | Except.ok t => splitBeforeE charChart t

/-- Exception-explicit version of `scoreSection`. -/
def scoreSectionE (comparison : List Char) : Except Unit (List Char) :=
  splitAfterE charChart comparison

/-- The four optional comparison subsections the display produces. -/
structure ComparisonView where
  matched : Option (List Char)
  missing : Option (List Char)
  extra : Option (List Char)
  score : Option (List Char)
deriving DecidableEq

/-- The subsections extracted by lines 151-172: each subsection is produced
only when its marker occurs in the comparison text. -/
def renderComparison (comparison : List Char) : ComparisonView :=
  { matched := if pyIn [charCheck] comparison then some (matchedSection comparison) else none
  , missing := if pyIn [charCross] comparison then some (missingSection comparison) else none
  , extra := if pyIn [charBulb] comparison then some (extraSection comparison) else none
  , score := if pyIn [charChart] comparison then some (scoreSection comparison) else none }

/-- One guarded subsection with exceptions explicit. -/
def guardedSectionE (flag : Bool) (sec : Except Unit (List Char)) :
    Except Unit (Option (List Char)) :=
  if flag then
    match sec with
    | Except.error e => Except.error e
    | Except.ok v => Except.ok (some v)
  else Except.ok none

/-- Lines 151-172 with Python's exception behaviour explicit: the four
guarded extractions run in order and an `IndexError` would abort the rest. -/
def renderComparisonE (comparison : List Char) : Except Unit ComparisonView :=
  match guardedSectionE (pyIn [charCheck] comparison) (matchedSectionE comparison) with
  | Except.error e => Except.error e
  | Except.ok m =>
    match guardedSectionE (pyIn [charCross] comparison) (missingSectionE comparison) with
    | Except.error e => Except.error e
    | Except.ok mi =>
      match guardedSectionE (pyIn [charBulb] comparison) (extraSectionE comparison) with
      | Except.error e => Except.error e
      | Except.ok ex =>
        match guardedSectionE (pyIn [charChart] comparison) (scoreSectionE comparison) with
        | Except.error e => Except.error e
        | Except.ok sc => Except.ok ⟨m, mi, ex, sc⟩

/-! ### Presentation layer and main (src/app.py lines 102-172) -/

/-- One rendered Streamlit widget, in order of emission. -/
inductive UiEvent where
  | preview (s : List Char)
  | markdown (s : List Char)
  | subheader (s : List Char)
  | success (s : List Char)
  | errorBox (s : List Char)
  | warning (s : List Char)
  | info (s : List Char)
deriving DecidableEq

/-- One filesystem side effect. -/
inductive FsEvent where
  | write (path : List Char) (content : List Nat)
  | delete (path : List Char)
deriving DecidableEq

/-- An uploaded file: name plus raw bytes. -/
structure UploadedFile where
  name : List Char
  content : List Nat

/-- `load_resume_docs` (lines 78-91): write the bytes to `temp_<name>`, then
dispatch on the extension; unknown extensions return `None`.  The three
loader oracles stand for the external PDF/DOCX/TXT decoders applied to the
written bytes; the first component is the filesystem trace. -/
def load_resume_docs (pdfLoad docxLoad txtLoad : List Nat → List (List Char))
    (f : UploadedFile) : List FsEvent × Option (List (List Char)) :=
  let temp_path := strL "temp_" ++ f.name
  let fs := [FsEvent.write temp_path f.content]
  if pyEndsWith (strL ".pdf") f.name then (fs, some (pdfLoad f.content))
  else if pyEndsWith (strL ".docx") f.name then (fs, some (docxLoad f.content))
  else if pyEndsWith (strL ".txt") f.name then (fs, some (txtLoad f.content))
  else (fs, none)

/-- The error message of line 112. -/
def unsupportedMsg : List Char := strL "Unsupported file type."

/-- The preview (lines 117-118): page contents joined with blank lines,
truncated to the first 4000 code points. -/
def previewOf (docs : List (List Char)) : List Char :=
  (List.intercalate (strL "\n\n") docs).take 4000

/-- The widgets emitted for the comparison half (lines 148-172). -/
def comparisonEvents (comparison : List Char) : List UiEvent :=
  [UiEvent.markdown (strL "## 🔍 Resume vs Job Description Skills")] ++
  (if pyIn [charCheck] comparison then
    [UiEvent.subheader (strL "✅ Matching Skills"),
     UiEvent.success (cleanTextBlock (matchedSection comparison))] else []) ++
  (if pyIn [charCross] comparison then
    [UiEvent.subheader (strL "❌ Missing Skills"),
     UiEvent.errorBox (cleanTextBlock (missingSection comparison))] else []) ++
  (if pyIn [charBulb] comparison then
    [UiEvent.subheader (strL "💡 Extra Skills"),
     UiEvent.warning (cleanTextBlock (extraSection comparison))] else []) ++
  (if pyIn [charChart] comparison then
    [UiEvent.subheader (strL "📊 Match Score"),
     UiEvent.info (cleanTextBlock (scoreSection comparison))] else [])

/-- The widgets for the whole LLM response (lines 136-172): the resume info
is always rendered; the comparison half only when it is a truthy (non-`None`,
non-empty) string. -/
def displayResponse (content : List Char) : List UiEvent :=
  let p := partitionContent content
  [UiEvent.markdown (strL "## 📌 Extracted Resume Information"),
   UiEvent.markdown p.1] ++
  (match p.2 with
   | none => []
   | some c => if c.isEmpty then [] else comparisonEvents c)

/-- One full analyze run of `main` (lines 102-172), as the UI-event and
filesystem-event traces it produces.  `llm` is the oracle for
`llm.invoke`. -/
def mainRun (pdfLoad docxLoad txtLoad : List Nat → List (List Char))
    (llm : List Char → List Char) (f : UploadedFile) (jd : List Char) :
    List UiEvent × List FsEvent :=
  let r := load_resume_docs pdfLoad docxLoad txtLoad f
  match r.2 with
  | none => ([UiEvent.errorBox unsupportedMsg], r.1)
  | some docs =>
    if docs.isEmpty then ([UiEvent.errorBox unsupportedMsg], r.1)
    else
      let fullText := List.intercalate (strL "\n\n") docs
      let response := llm (buildPrompt fullText jd)
      (UiEvent.preview (previewOf docs) :: displayResponse response, r.1)

/-! ### Lemmas about the string primitives -/

theorem pyIn_iff (needle hay : List Char) : pyIn needle hay = true ↔ needle <:+: hay := by
  induction hay with
  | nil =>
    simp only [pyIn, List.infix_nil, List.isEmpty_iff]
  | cons c rest ih =>
    simp [pyIn, List.infix_cons_iff, ih]

theorem pyIn_eq_false_iff (needle hay : List Char) :
    pyIn needle hay = false ↔ ¬needle <:+: hay := by
  rw [← pyIn_iff]
  cases pyIn needle hay <;> simp

theorem pyIn_singleton (c : Char) (s : List Char) : pyIn [c] s = true ↔ c ∈ s := by
  rw [pyIn_iff]
  constructor
  · intro h
    exact h.subset (List.mem_singleton_self c)
  · intro h
    obtain ⟨u, v, rfl⟩ := List.append_of_mem h
    exact ⟨u, v, by simp⟩

theorem pyIn_singleton_eq_false {c : Char} {s : List Char} (h : c ∉ s) :
    pyIn [c] s = false := by
  cases hb : pyIn [c] s
  · rfl
  · exact absurd ((pyIn_singleton c s).mp hb) h

theorem splitFirst_snd_lt {sep : List Char} (hsep : sep ≠ []) :
    ∀ {s : List Char} {p : List Char × List Char},
      splitFirst sep s = some p → p.2.length < s.length := by
  intro s
  induction s with
  | nil => intro p h; simp [splitFirst] at h
  | cons c rest ih =>
    intro p h
    have hpos : 0 < sep.length := List.length_pos.mpr hsep
    simp only [splitFirst] at h
    split at h
    · cases h
      simp only [List.length_drop, List.length_cons]
      omega
    · cases hm : splitFirst sep rest with
      | none => rw [hm] at h; cases h
      | some q =>
        rw [hm] at h
        cases h
        have := ih hm
        simp only [List.length_cons]
        omega

theorem splitFirst_eq_none_iff {sep : List Char} (hsep : sep ≠ []) (s : List Char) :
    splitFirst sep s = none ↔ pyIn sep s = false := by
  induction s with
  | nil =>
    simp [splitFirst, pyIn, List.isEmpty_iff, hsep]
  | cons c rest ih =>
    simp only [splitFirst, pyIn]
    by_cases hp : sep.isPrefixOf (c :: rest)
    · simp [hp]
    · cases hm : splitFirst sep rest with
      | none =>
        have := ih.mp hm
        simp [hp, hm, this]
      | some q =>
        have : pyIn sep rest = true := by
          cases hb : pyIn sep rest
          · exact absurd (ih.mpr hb) (by simp [hm])
          · rfl
        simp [hp, hm, this]

theorem hasProperBorder_singleton (c : Char) : hasProperBorder [c] = false := by
  have h1 : List.range 1 = [0] := rfl
  simp [hasProperBorder, h1]

theorem splitFirst_cons_eq (sep : List Char) (c : Char) (rest : List Char) :
    splitFirst sep (c :: rest) =
      if sep.isPrefixOf (c :: rest) then some ([], (c :: rest).drop sep.length)
      else
        match splitFirst sep rest with
        | none => none
        | some p => some (c :: p.1, p.2) := rfl

theorem splitFirst_append {sep : List Char} (hsep : sep ≠ [])
    (hnb : hasProperBorder sep = false) :
    ∀ a b : List Char, pyIn sep a = false →
      splitFirst sep (a ++ (sep ++ b)) = some (a, b) := by
  intro a
  induction a with
  | nil =>
    intro b _
    obtain ⟨c, sep', rfl⟩ : ∃ c sep', sep = c :: sep' := by
      cases sep with
      | nil => exact absurd rfl hsep
      | cons c sep' => exact ⟨c, sep', rfl⟩
    have hp : (c :: sep').isPrefixOf (c :: (sep' ++ b)) := by
      rw [List.isPrefixOf_iff_prefix]
      simp
    have hd : (c :: (sep' ++ b)).drop (c :: sep').length = b := by
      have h0 := List.drop_left (c :: sep') b
      rw [show (c :: sep') ++ b = c :: (sep' ++ b) from rfl] at h0
      exact h0
    rw [List.nil_append, show (c :: sep') ++ b = c :: (sep' ++ b) from rfl,
      splitFirst_cons_eq, if_pos hp, hd]
  | cons x a' ih =>
    intro b ha
    have ha' : pyIn sep a' = false := by
      simp only [pyIn, Bool.or_eq_false_iff] at ha
      exact ha.2
    have hnp : ¬sep.isPrefixOf ((x :: a') ++ (sep ++ b)) := by
      intro hp0
      have hp := List.isPrefixOf_iff_prefix.mp hp0
      rcases le_or_lt sep.length (x :: a').length with hle | hgt
      · have hpre : sep <+: (x :: a') := by
          rw [List.prefix_iff_eq_take] at hp ⊢
          have h1 : List.take sep.length ((x :: a') ++ (sep ++ b)) =
              List.take sep.length (x :: a') := by
            rw [List.take_append_eq_append_take,
              Nat.sub_eq_zero_of_le hle, List.take_zero, List.append_nil]
          exact hp.trans h1
        have : pyIn sep (x :: a') = true := (pyIn_iff _ _).mpr hpre.isInfix
        rw [ha] at this
        cases this
      · have hk1 : 1 ≤ sep.length - (x :: a').length := by omega
        have hklt : sep.length - (x :: a').length < sep.length := by
          simp only [List.length_cons]
          omega
        have hsepeq : sep = (x :: a') ++ sep.take (sep.length - (x :: a').length) := by
          rw [List.prefix_iff_eq_take] at hp
          conv_lhs => rw [hp]
          rw [List.take_append_eq_append_take]
          congr 1
          · exact List.take_of_length_le (Nat.le_of_lt hgt)
          · rw [List.take_append_eq_append_take,
              Nat.sub_eq_zero_of_le (by omega : sep.length - (x :: a').length ≤ sep.length),
              List.take_zero, List.append_nil]
        have hdrop : sep.drop (sep.length - (sep.length - (x :: a').length)) =
            sep.take (sep.length - (x :: a').length) := by
          have hlen : sep.length - (sep.length - (x :: a').length) = (x :: a').length := by
            omega
          rw [hlen]
          conv_lhs => rw [hsepeq]
          exact List.drop_left _ _
        have htrue : hasProperBorder sep = true := by
          unfold hasProperBorder
          rw [List.any_eq_true]
          refine ⟨sep.length - (x :: a').length, List.mem_range.mpr hklt, ?_⟩
          simp only [Bool.and_eq_true, decide_eq_true_eq]
          exact ⟨by omega, hdrop.symm⟩
        rw [hnb] at htrue
        cases htrue
    have hnp2 : ¬sep.isPrefixOf (x :: (a' ++ (sep ++ b))) := by
      simpa using hnp
    rw [show (x :: a') ++ (sep ++ b) = x :: (a' ++ (sep ++ b)) from rfl,
      splitFirst_cons_eq, if_neg hnp2, ih b ha']

theorem pySplitFuel_succ (sep : List Char) (n : Nat) (s : List Char) :
    pySplitFuel sep (n + 1) s =
      match splitFirst sep s with
      | none => [s]
      | some p => p.1 :: pySplitFuel sep n p.2 := rfl

theorem pySplitFuel_congr {sep : List Char} (hsep : sep ≠ []) :
    ∀ n m s, s.length < n → s.length < m →
      pySplitFuel sep n s = pySplitFuel sep m s := by
  intro n
  induction n with
  | zero => intro m s h _; exact absurd h (Nat.not_lt_zero _)
  | succ n ih =>
    intro m s hn hm
    cases m with
    | zero => exact absurd hm (Nat.not_lt_zero _)
    | succ m' =>
      rw [pySplitFuel_succ, pySplitFuel_succ]
      cases hq : splitFirst sep s with
      | none => rfl
      | some p =>
        have hlt := splitFirst_snd_lt hsep hq
        show p.1 :: pySplitFuel sep n p.2 = p.1 :: pySplitFuel sep m' p.2
        rw [ih m' p.2 (by omega) (by omega)]

theorem pySplit_eq_fuel {sep : List Char} (hsep : sep ≠ []) (s : List Char) :
    pySplit sep s = pySplitFuel sep (s.length + 1) s := by
  have he : sep.isEmpty = false := by
    cases sep with
    | nil => exact absurd rfl hsep
    | cons c t => rfl
  unfold pySplit
  rw [if_neg (by simp [he])]

theorem pySplit_of_none {sep s : List Char} (hsep : sep ≠ []) (h : splitFirst sep s = none) :
    pySplit sep s = [s] := by
  rw [pySplit_eq_fuel hsep, pySplitFuel_succ, h]

theorem pySplit_of_some {sep s : List Char} {p : List Char × List Char}
    (hsep : sep ≠ []) (h : splitFirst sep s = some p) :
    pySplit sep s = p.1 :: pySplit sep p.2 := by
  rw [pySplit_eq_fuel hsep, pySplitFuel_succ, h]
  show p.1 :: pySplitFuel sep s.length p.2 = p.1 :: pySplit sep p.2
  rw [pySplit_eq_fuel hsep,
    pySplitFuel_congr hsep s.length (p.2.length + 1) p.2
      (splitFirst_snd_lt hsep h) (Nat.lt_succ_self _)]

theorem pySplit_ne_nil (sep s : List Char) : pySplit sep s ≠ [] := by
  by_cases hsep : sep = []
  · subst hsep
    simp [pySplit]
  · cases h : splitFirst sep s with
    | none => rw [pySplit_of_none hsep h]; simp
    | some p => rw [pySplit_of_some hsep h]; simp

theorem splitFirst_single {c : Char} {pre rest : List Char} (h : c ∉ pre) :
    splitFirst [c] (pre ++ c :: rest) = some (pre, rest) := by
  have := splitFirst_append (by simp : [c] ≠ []) (hasProperBorder_singleton c)
    pre rest (pyIn_singleton_eq_false h)
  simpa using this

theorem pySplit_single_cons {c : Char} {pre rest : List Char} (h : c ∉ pre) :
    pySplit [c] (pre ++ c :: rest) = pre :: pySplit [c] rest :=
  pySplit_of_some (by simp) (splitFirst_single h)

theorem pySplit_single_of_not_mem {c : Char} {s : List Char} (h : c ∉ s) :
    pySplit [c] s = [s] :=
  pySplit_of_none (by simp)
    ((splitFirst_eq_none_iff (by simp) s).mpr (pyIn_singleton_eq_false h))

theorem pySplit_single_pair {c : Char} {pre rest : List Char}
    (h1 : c ∉ pre) (h2 : c ∉ rest) :
    pySplit [c] (pre ++ c :: rest) = [pre, rest] := by
  rw [pySplit_single_cons h1, pySplit_single_of_not_mem h2]

theorem pySplit_single_length_two {c : Char} {s : List Char} (h : c ∈ s) :
    2 ≤ (pySplit [c] s).length := by
  cases hm : splitFirst [c] s with
  | none =>
    have : pyIn [c] s = false := (splitFirst_eq_none_iff (by simp) s).mp hm
    rw [(pyIn_singleton c s).mpr h] at this
    cases this
  | some p =>
    rw [pySplit_of_some (by simp) hm]
    have := pySplit_ne_nil [c] p.2
    have : 0 < (pySplit [c] p.2).length := List.length_pos.mpr this
    simp only [List.length_cons]
    omega

/-! ### Lemmas about takeLine and pySplitlines -/

theorem takeLine_cons_eq (c : Char) (rest : List Char) :
    takeLine (c :: rest) =
      if isLineBreak c then
        if c = '\r' then
          match rest with
          | c2 :: rest2 => if c2 = '\n' then ([], rest2) else ([], rest)
          | [] => ([], [])
        else ([], rest)
      else ((takeLine rest).1.cons c, (takeLine rest).2) := rfl

theorem takeLine_fst_no_break :
    ∀ s : List Char, ∀ c ∈ (takeLine s).1, isLineBreak c = false := by
  intro s
  induction s with
  | nil => simp [takeLine]
  | cons x rest ih =>
    rw [takeLine_cons_eq]
    cases hb : isLineBreak x with
    | true =>
      by_cases hr : x = '\r'
      · cases rest with
        | nil => simp [hb, hr]
        | cons c2 rest2 => by_cases hn : c2 = '\n' <;> simp [hb, hr, hn]
      · simp [hb, hr]
    | false =>
      simp only [hb, Bool.false_eq_true, if_false]
      intro c hc
      rcases List.mem_cons.mp hc with rfl | hc2
      · exact hb
      · exact ih c hc2

theorem takeLine_snd_lt : ∀ s : List Char, s ≠ [] → (takeLine s).2.length < s.length := by
  have hle : ∀ s : List Char, (takeLine s).2.length ≤ s.length := by
    intro s
    induction s with
    | nil => simp [takeLine]
    | cons x rest ih =>
      rw [takeLine_cons_eq]
      cases hb : isLineBreak x with
      | true =>
        by_cases hr : x = '\r'
        · cases rest with
          | nil => simp [hb, hr]
          | cons c2 rest2 =>
            by_cases hn : c2 = '\n' <;> simp [hb, hr, hn] <;> omega
        · simp [hb, hr]
      | false =>
        simp only [hb, Bool.false_eq_true, if_false, List.length_cons]
        omega
  intro s hs
  cases s with
  | nil => exact absurd rfl hs
  | cons x rest =>
    rw [takeLine_cons_eq]
    cases hb : isLineBreak x with
    | true =>
      by_cases hr : x = '\r'
      · cases rest with
        | nil => simp [hb, hr]
        | cons c2 rest2 =>
          by_cases hn : c2 = '\n' <;> simp [hb, hr, hn] <;> omega
      · simp [hb, hr]
    | false =>
      simp only [hb, Bool.false_eq_true, if_false, List.length_cons]
      have := hle rest
      omega

theorem pySplitlinesFuel_nil (n : Nat) : pySplitlinesFuel n [] = [] := by
  cases n <;> rfl

theorem pySplitlinesFuel_cons (n : Nat) (c : Char) (rest : List Char) :
    pySplitlinesFuel (n + 1) (c :: rest) =
      (takeLine (c :: rest)).1 :: pySplitlinesFuel n (takeLine (c :: rest)).2 := rfl

theorem pySplitlinesFuel_congr :
    ∀ n m s, s.length ≤ n → s.length ≤ m →
      pySplitlinesFuel n s = pySplitlinesFuel m s := by
  intro n
  induction n with
  | zero =>
    intro m s hn _
    have : s = [] := List.length_eq_zero.mp (Nat.le_zero.mp hn)
    subst this
    rw [pySplitlinesFuel_nil, pySplitlinesFuel_nil]
  | succ n ih =>
    intro m s hn hm
    cases s with
    | nil => rw [pySplitlinesFuel_nil, pySplitlinesFuel_nil]
    | cons c rest =>
      cases m with
      | zero => simp at hm
      | succ m' =>
        rw [pySplitlinesFuel_cons, pySplitlinesFuel_cons]
        have hlt := takeLine_snd_lt (c :: rest) (by simp)
        rw [ih m' (takeLine (c :: rest)).2 (by simp at hlt hn ⊢; omega)
          (by simp at hlt hm ⊢; omega)]

theorem pySplitlines_nil : pySplitlines [] = [] := rfl

theorem pySplitlines_cons {s : List Char} (hs : s ≠ []) :
    pySplitlines s = (takeLine s).1 :: pySplitlines (takeLine s).2 := by
  cases s with
  | nil => exact absurd rfl hs
  | cons c rest =>
    show pySplitlinesFuel (rest.length + 1) (c :: rest) = _
    rw [pySplitlinesFuel_cons]
    have hlt := takeLine_snd_lt (c :: rest) (by simp)
    rw [pySplitlinesFuel_congr rest.length (takeLine (c :: rest)).2.length
      (takeLine (c :: rest)).2 (by simp at hlt ⊢; omega) (Nat.le_refl _)]
    rfl

theorem mem_pySplitlines_no_break :
    ∀ s : List Char, ∀ l ∈ pySplitlines s, ∀ c ∈ l, isLineBreak c = false := by
  have key : ∀ n : Nat, ∀ s : List Char, s.length ≤ n →
      ∀ l ∈ pySplitlines s, ∀ c ∈ l, isLineBreak c = false := by
    intro n
    induction n with
    | zero =>
      intro s hn
      have : s = [] := List.length_eq_zero.mp (Nat.le_zero.mp hn)
      subst this
      simp [pySplitlines_nil]
    | succ n ih =>
      intro s hn l hl
      by_cases hs : s = []
      · subst hs
        simp [pySplitlines_nil] at hl
      · rw [pySplitlines_cons hs] at hl
        rcases List.mem_cons.mp hl with rfl | hl2
        · exact takeLine_fst_no_break s
        · have hlt := takeLine_snd_lt s hs
          exact ih (takeLine s).2 (by omega) l hl2
  intro s
  exact key s.length s (Nat.le_refl _)

/-! ### Lemmas about stripBy -/

theorem head?_dropWhile_eq_false {p : Char → Bool} :
    ∀ {s : List Char} {c : Char}, (s.dropWhile p).head? = some c → p c = false := by
  intro s
  induction s with
  | nil => intro c h; simp at h
  | cons x xs ih =>
    intro c h
    rw [List.dropWhile_cons] at h
    by_cases hx : p x = true
    · rw [if_pos hx] at h
      exact ih h
    · rw [if_neg hx] at h
      simp only [List.head?_cons, Option.some_inj] at h
      rw [← h]
      cases hb : p x
      · rfl
      · exact absurd hb hx

theorem head?_of_front {l₁ l₂ : List Char} {c : Char} (h : l₁ <+: l₂)
    (hc : l₁.head? = some c) : l₂.head? = some c := by
  obtain ⟨t, rfl⟩ := h
  cases l₁ with
  | nil => simp at hc
  | cons x xs => simpa using hc

theorem stripBy_front (p : Char → Bool) (s : List Char) :
    stripBy p s <+: s.dropWhile p := by
  unfold stripBy
  have h1 : (s.dropWhile p).reverse.dropWhile p <:+ (s.dropWhile p).reverse :=
    List.dropWhile_suffix p
  have h2 := List.reverse_prefix.mpr h1
  rwa [List.reverse_reverse] at h2

theorem head?_stripBy_eq_false {p : Char → Bool} {s : List Char} {c : Char}
    (h : (stripBy p s).head? = some c) : p c = false :=
  head?_dropWhile_eq_false (head?_of_front (stripBy_front p s) h)

theorem mem_stripBy {p : Char → Bool} {s : List Char} {c : Char}
    (h : c ∈ stripBy p s) : c ∈ s :=
  (List.dropWhile_suffix p).subset ((stripBy_front p s).subset h)

/-! ### Joining and re-splitting lines -/

theorem intercalate_cons_cons (sep x y : List Char) (zs : List (List Char)) :
    List.intercalate sep (x :: y :: zs) = x ++ sep ++ List.intercalate sep (y :: zs) := by
  simp [List.intercalate, List.append_assoc]

theorem pySplit_newline_join :
    ∀ L : List (List Char), L ≠ [] → (∀ l ∈ L, '\n' ∉ l) →
      pySplit ['\n'] (List.intercalate ['\n'] L) = L := by
  intro L
  induction L with
  | nil => intro h; exact absurd rfl h
  | cons x L' ih =>
    intro _ hnl
    cases L' with
    | nil =>
      have hx : List.intercalate ['\n'] [x] = x := by simp [List.intercalate]
      rw [hx]
      exact pySplit_single_of_not_mem (hnl x (by simp))
    | cons y zs =>
      rw [intercalate_cons_cons]
      have hshape : x ++ ['\n'] ++ List.intercalate ['\n'] (y :: zs) =
          x ++ '\n' :: List.intercalate ['\n'] (y :: zs) := by
        simp
      rw [hshape, pySplit_single_cons (hnl x (by simp)),
        ih (by simp) (fun l hl => hnl l (List.mem_cons_of_mem x hl))]

/-! ### Lemmas about the partitioner and subsection extraction -/

theorem comparisonHeading_ne_nil : comparisonHeading ≠ [] := by decide

theorem comparisonHeading_no_border : hasProperBorder comparisonHeading = false := by decide

theorem partitionContent_append {a : List Char} (b : List Char)
    (ha : pyIn comparisonHeading a = false) :
    partitionContent (a ++ comparisonHeading ++ b) = (a, some b) := by
  have hin : pyIn comparisonHeading (a ++ comparisonHeading ++ b) = true := by
    rw [pyIn_iff]
    exact ⟨a, b, by simp⟩
  have hsf : splitFirst comparisonHeading (a ++ comparisonHeading ++ b) = some (a, b) := by
    have := splitFirst_append comparisonHeading_ne_nil comparisonHeading_no_border a b ha
    rwa [← List.append_assoc] at this
  unfold partitionContent
  rw [if_pos hin, hsf]

theorem partitionContent_of_not_in {content : List Char}
    (h : pyIn comparisonHeading content = false) :
    partitionContent content = (content, none) := by
  unfold partitionContent
  rw [if_neg (by simp [h])]

theorem pyIndex_ok {l : List (List Char)} {i : Nat} (h : i < l.length) :
    pyIndex l i = Except.ok (l.getD i []) := by
  unfold pyIndex
  rw [if_pos h]

theorem splitBeforeE_ok (c : Char) (s : List Char) :
    splitBeforeE c s = Except.ok (splitBefore c s) := by
  unfold splitBeforeE splitBefore
  exact pyIndex_ok (List.length_pos.mpr (pySplit_ne_nil [c] s))

theorem splitAfterE_ok {c : Char} {s : List Char} (h : c ∈ s) :
    splitAfterE c s = Except.ok (splitAfter c s) := by
  unfold splitAfterE splitAfter
  exact pyIndex_ok (by have := pySplit_single_length_two h; omega)

theorem matchedSectionE_ok {comparison : List Char}
    (h : pyIn [charCheck] comparison = true) :
    matchedSectionE comparison = Except.ok (matchedSection comparison) := by
  unfold matchedSectionE matchedSection
  rw [splitAfterE_ok ((pyIn_singleton _ _).mp h)]
  show splitBeforeE charCross (splitAfter charCheck comparison) = _
  rw [splitBeforeE_ok]

theorem missingSectionE_ok {comparison : List Char}
    (h : pyIn [charCross] comparison = true) :
    missingSectionE comparison = Except.ok (missingSection comparison) := by
  unfold missingSectionE missingSection
  rw [splitAfterE_ok ((pyIn_singleton _ _).mp h)]
  show splitBeforeE charBulb (splitAfter charCross comparison) = _
  rw [splitBeforeE_ok]

theorem extraSectionE_ok {comparison : List Char}
    (h : pyIn [charBulb] comparison = true) :
    extraSectionE comparison = Except.ok (extraSection comparison) := by
  unfold extraSectionE extraSection
  rw [splitAfterE_ok ((pyIn_singleton _ _).mp h)]
  show splitBeforeE charChart (splitAfter charBulb comparison) = _
  rw [splitBeforeE_ok]

theorem scoreSectionE_ok {comparison : List Char}
    (h : pyIn [charChart] comparison = true) :
    scoreSectionE comparison = Except.ok (scoreSection comparison) := by
  unfold scoreSectionE scoreSection
  exact splitAfterE_ok ((pyIn_singleton _ _).mp h)

theorem renderComparisonE_ok (comparison : List Char) :
    renderComparisonE comparison = Except.ok (renderComparison comparison) := by
  unfold renderComparisonE renderComparison guardedSectionE
  cases h1 : pyIn [charCheck] comparison <;>
    cases h2 : pyIn [charCross] comparison <;>
      cases h3 : pyIn [charBulb] comparison <;>
        cases h4 : pyIn [charChart] comparison <;>
          simp [matchedSectionE_ok, missingSectionE_ok, extraSectionE_ok, scoreSectionE_ok,
            h1, h2, h3, h4]

/-! ### Lemmas about clean_text_block -/

theorem no_newline_cleanedLines {s l : List Char} (hl : l ∈ cleanedLines s) : '\n' ∉ l := by
  unfold cleanedLines at hl
  rw [List.mem_map] at hl
  obtain ⟨l', hl', rfl⟩ := hl
  have hl'' := List.mem_of_mem_filter hl'
  intro hmem
  have hmem' : '\n' ∈ l' := mem_stripBy hmem
  have := mem_pySplitlines_no_break _ l' hl'' '\n' hmem'
  simp [isLineBreak] at this

theorem head_cleanedLines {s l : List Char} {c : Char} (hl : l ∈ cleanedLines s)
    (hc : l.head? = some c) : ((strL " -•").contains c) = false := by
  unfold cleanedLines at hl
  rw [List.mem_map] at hl
  obtain ⟨l', _, rfl⟩ := hl
  exact head?_stripBy_eq_false hc

theorem linesOf_cleanTextBlock (s : List Char) :
    linesOf (cleanTextBlock s) =
      if cleanedLines s = [] then [[]] else cleanedLines s := by
  by_cases h : cleanedLines s = []
  · rw [if_pos h]
    unfold cleanTextBlock linesOf
    rw [h]
    show pySplit ['\n'] [] = [[]]
    exact pySplit_of_none (by simp) rfl
  · rw [if_neg h]
    unfold cleanTextBlock linesOf
    exact pySplit_newline_join (cleanedLines s) h (fun l hl => no_newline_cleanedLines hl)

/-! ### Claims -/

/-- C3 counterexample: the claim says no line of `clean_text_block`'s output
begins with a hash, but on input "#x" (no "###" or "##" to remove, and
`strip(" -•")` does not touch "#") the single output line begins with '#'. -/
theorem cleanTextBlock_hash_line_counterexample :
    ∃ l, l ∈ linesOf (cleanTextBlock (strL "#x")) ∧ l.head? = some '#' :=
  ⟨strL "#x", by decide, by decide⟩

/-- C3 (amended): for every input string, no line of the output of
`clean_text_block` begins with a space, a dash or a bullet (these are exactly
the characters removed from line ends by `strip(" -•")`); lines may still
begin with '#' (only the exact substrings "###" and "##" are removed) or with
non-space whitespace such as a tab. -/
theorem cleanTextBlock_no_stripped_line_start (s l : List Char)
    (hl : l ∈ linesOf (cleanTextBlock s)) :
    l.head? ≠ some ' ' ∧ l.head? ≠ some '-' ∧ l.head? ≠ some '•' := by
  rw [linesOf_cleanTextBlock] at hl
  by_cases h : cleanedLines s = []
  · rw [if_pos h] at hl
    simp only [List.mem_singleton] at hl
    subst hl
    simp
  · rw [if_neg h] at hl
    cases hc : l.head? with
    | none => simp
    | some c =>
      have hcontains := head_cleanedLines hl hc
      have hset : strL " -•" = [' ', '-', '•'] := by decide
      rw [hset] at hcontains
      simp only [List.contains_cons, Bool.or_eq_false_iff, beq_eq_false_iff_ne] at hcontains
      refine ⟨fun he => ?_, fun he => ?_, fun he => ?_⟩
      · exact hcontains.1 (Option.some_inj.mp he)
      · exact hcontains.2.1 (Option.some_inj.mp he)
      · exact hcontains.2.2.1 (Option.some_inj.mp he)

/-- C3 witness: a concrete run of the amended theorem on input "- a", whose
cleaned output is the single line "a". -/
theorem cleanTextBlock_no_stripped_line_start_witness :
    (strL "a").head? ≠ some ' ' ∧ (strL "a").head? ≠ some '-' ∧
      (strL "a").head? ≠ some '•' :=
  cleanTextBlock_no_stripped_line_start (strL "- a") (strL "a") (by decide)

/-- C5: the prompt builder is a pure function of the (resume text, JD text)
pair, and an empty JD text makes the fixed sentinel "No JD provided" be
substituted into the template in its place. -/
theorem buildPrompt_pure_and_sentinel (r₁ j₁ r₂ j₂ : List Char)
    (h : r₁ = r₂ ∧ j₁ = j₂) :
    buildPrompt r₁ j₁ = buildPrompt r₂ j₂ ∧
      (j₁ = [] →
        buildPrompt r₁ j₁ =
          promptPart1 ++ r₁ ++ promptPart2 ++ noJdSentinel ++ promptPart3) := by
  obtain ⟨rfl, rfl⟩ := h
  refine ⟨rfl, fun hj => ?_⟩
  subst hj
  rfl

/-- C5 witness: the theorem applied to the concrete pair ("R", ""). -/
theorem buildPrompt_pure_and_sentinel_witness :
    buildPrompt (strL "R") [] = buildPrompt (strL "R") [] ∧
      (([] : List Char) = [] →
        buildPrompt (strL "R") [] =
          promptPart1 ++ strL "R" ++ promptPart2 ++ noJdSentinel ++ promptPart3) :=
  buildPrompt_pure_and_sentinel (strL "R") [] (strL "R") [] ⟨rfl, rfl⟩

/-- C8: the displayed preview is the first 4000 code points of the page
contents joined with blank lines, so its length never exceeds 4000. -/
theorem preview_is_bounded_truncation (docs : List (List Char)) :
    previewOf docs = (List.intercalate (strL "\n\n") docs).take 4000 ∧
      (previewOf docs).length ≤ 4000 :=
  ⟨rfl, List.length_take_le 4000 _⟩

/-- C1: for a response of the shape
`a ++ heading ++ (b1 ++ ✅ ++ b2 ++ ❌ ++ b3 ++ 💡 ++ b4 ++ 📊 ++ b5)` in which
the heading does not occur in `a` and each of the four markers occurs exactly
once and in that order after the heading, the partitioner's resume section is
exactly `a`, the comparison is the text after the heading, and the
matched/missing/extra/score sections (before cleaning) are exactly `b2`,
`b3`, `b4` and the text `b5` after 📊. -/
theorem partitioner_round_trip (a b1 b2 b3 b4 b5 : List Char)
    (ha : pyIn comparisonHeading a = false)
    (hc : charCheck ∉ b1 ∧ charCheck ∉ b2 ∧ charCheck ∉ b3 ∧ charCheck ∉ b4 ∧ charCheck ∉ b5)
    (hx : charCross ∉ b1 ∧ charCross ∉ b2 ∧ charCross ∉ b3 ∧ charCross ∉ b4 ∧ charCross ∉ b5)
    (hb : charBulb ∉ b1 ∧ charBulb ∉ b2 ∧ charBulb ∉ b3 ∧ charBulb ∉ b4 ∧ charBulb ∉ b5)
    (hch : charChart ∉ b1 ∧ charChart ∉ b2 ∧ charChart ∉ b3 ∧ charChart ∉ b4 ∧ charChart ∉ b5) :
    partitionContent (a ++ comparisonHeading ++
        (b1 ++ charCheck :: (b2 ++ charCross :: (b3 ++ charBulb :: (b4 ++ charChart :: b5))))) =
      (a, some (b1 ++ charCheck :: (b2 ++ charCross :: (b3 ++ charBulb :: (b4 ++ charChart :: b5))))) ∧
    matchedSection (b1 ++ charCheck :: (b2 ++ charCross :: (b3 ++ charBulb :: (b4 ++ charChart :: b5)))) = b2 ∧
    missingSection (b1 ++ charCheck :: (b2 ++ charCross :: (b3 ++ charBulb :: (b4 ++ charChart :: b5)))) = b3 ∧
    extraSection (b1 ++ charCheck :: (b2 ++ charCross :: (b3 ++ charBulb :: (b4 ++ charChart :: b5)))) = b4 ∧
    scoreSection (b1 ++ charCheck :: (b2 ++ charCross :: (b3 ++ charBulb :: (b4 ++ charChart :: b5)))) = b5 := by
  have n1 : charCheck ∉ b2 ++ charCross :: (b3 ++ charBulb :: (b4 ++ charChart :: b5)) := by
    intro hm
    simp only [List.mem_append, List.mem_cons] at hm
    rcases hm with h | h | h | h | h | h | h
    · exact hc.2.1 h
    · exact absurd h (by decide)
    · exact hc.2.2.1 h
    · exact absurd h (by decide)
    · exact hc.2.2.2.1 h
    · exact absurd h (by decide)
    · exact hc.2.2.2.2 h
  have n2 : charCross ∉ b1 ++ charCheck :: b2 := by
    intro hm
    simp only [List.mem_append, List.mem_cons] at hm
    rcases hm with h | h | h
    · exact hx.1 h
    · exact absurd h (by decide)
    · exact hx.2.1 h
  have n3 : charCross ∉ b3 ++ charBulb :: (b4 ++ charChart :: b5) := by
    intro hm
    simp only [List.mem_append, List.mem_cons] at hm
    rcases hm with h | h | h | h | h
    · exact hx.2.2.1 h
    · exact absurd h (by decide)
    · exact hx.2.2.2.1 h
    · exact absurd h (by decide)
    · exact hx.2.2.2.2 h
  have n4 : charBulb ∉ b1 ++ charCheck :: (b2 ++ charCross :: b3) := by
    intro hm
    simp only [List.mem_append, List.mem_cons] at hm
    rcases hm with h | h | h | h | h
    · exact hb.1 h
    · exact absurd h (by decide)
    · exact hb.2.1 h
    · exact absurd h (by decide)
    · exact hb.2.2.1 h
  have n5 : charBulb ∉ b4 ++ charChart :: b5 := by
    intro hm
    simp only [List.mem_append, List.mem_cons] at hm
    rcases hm with h | h | h
    · exact hb.2.2.2.1 h
    · exact absurd h (by decide)
    · exact hb.2.2.2.2 h
  have n6 : charChart ∉ b1 ++ charCheck :: (b2 ++ charCross :: (b3 ++ charBulb :: b4)) := by
    intro hm
    simp only [List.mem_append, List.mem_cons] at hm
    rcases hm with h | h | h | h | h | h | h
    · exact hch.1 h
    · exact absurd h (by decide)
    · exact hch.2.1 h
    · exact absurd h (by decide)
    · exact hch.2.2.1 h
    · exact absurd h (by decide)
    · exact hch.2.2.2.1 h
  refine ⟨partitionContent_append _ ha, ?_, ?_, ?_, ?_⟩
  · unfold matchedSection splitAfter splitBefore
    rw [pySplit_single_pair hc.1 n1]
    simp only [List.getD_cons_succ, List.getD_cons_zero]
    rw [pySplit_single_cons hx.2.1]
    simp only [List.getD_cons_zero]
  · unfold missingSection splitAfter splitBefore
    have e2 : b1 ++ charCheck :: (b2 ++ charCross :: (b3 ++ charBulb :: (b4 ++ charChart :: b5))) =
        (b1 ++ charCheck :: b2) ++ charCross :: (b3 ++ charBulb :: (b4 ++ charChart :: b5)) := by
      simp
    rw [e2, pySplit_single_pair n2 n3]
    simp only [List.getD_cons_succ, List.getD_cons_zero]
    rw [pySplit_single_cons hb.2.2.1]
    simp only [List.getD_cons_zero]
  · unfold extraSection splitAfter splitBefore
    have e3 : b1 ++ charCheck :: (b2 ++ charCross :: (b3 ++ charBulb :: (b4 ++ charChart :: b5))) =
        (b1 ++ charCheck :: (b2 ++ charCross :: b3)) ++ charBulb :: (b4 ++ charChart :: b5) := by
      simp
    rw [e3, pySplit_single_pair n4 n5]
    simp only [List.getD_cons_succ, List.getD_cons_zero]
    rw [pySplit_single_cons hch.2.2.2.1]
    simp only [List.getD_cons_zero]
  · unfold scoreSection splitAfter
    have e4 : b1 ++ charCheck :: (b2 ++ charCross :: (b3 ++ charBulb :: (b4 ++ charChart :: b5))) =
        (b1 ++ charCheck :: (b2 ++ charCross :: (b3 ++ charBulb :: b4))) ++ charChart :: b5 := by
      simp
    rw [e4, pySplit_single_pair n6 hch.2.2.2.2]
    simp only [List.getD_cons_succ, List.getD_cons_zero]

/-- C1 witness: the round trip on the concrete response
"r" ++ heading ++ "p✅q❌s💡t📊u". -/
theorem partitioner_round_trip_witness :
    partitionContent (strL "r" ++ comparisonHeading ++
        (strL "p" ++ charCheck :: (strL "q" ++ charCross :: (strL "s" ++ charBulb :: (strL "t" ++ charChart :: strL "u"))))) =
      (strL "r", some (strL "p" ++ charCheck :: (strL "q" ++ charCross :: (strL "s" ++ charBulb :: (strL "t" ++ charChart :: strL "u"))))) ∧
    matchedSection (strL "p" ++ charCheck :: (strL "q" ++ charCross :: (strL "s" ++ charBulb :: (strL "t" ++ charChart :: strL "u")))) = strL "q" ∧
    missingSection (strL "p" ++ charCheck :: (strL "q" ++ charCross :: (strL "s" ++ charBulb :: (strL "t" ++ charChart :: strL "u")))) = strL "s" ∧
    extraSection (strL "p" ++ charCheck :: (strL "q" ++ charCross :: (strL "s" ++ charBulb :: (strL "t" ++ charChart :: strL "u")))) = strL "t" ∧
    scoreSection (strL "p" ++ charCheck :: (strL "q" ++ charCross :: (strL "s" ++ charBulb :: (strL "t" ++ charChart :: strL "u")))) = strL "u" :=
  partitioner_round_trip (strL "r") (strL "p") (strL "q") (strL "s") (strL "t") (strL "u")
    (by decide) (by decide) (by decide) (by decide) (by decide)

/-- C2: when one of the four markers is absent from the comparison string,
its subsection is not produced, the partitioning raises no exception (the
exception-explicit rendering returns `ok`), and each subsection whose marker
is present is still extracted by its own split. -/
theorem comparison_missing_marker_safe (comparison : List Char)
    (_habs : pyIn [charCheck] comparison = false ∨ pyIn [charCross] comparison = false ∨
      pyIn [charBulb] comparison = false ∨ pyIn [charChart] comparison = false) :
    renderComparisonE comparison = Except.ok (renderComparison comparison) ∧
    (pyIn [charCheck] comparison = false → (renderComparison comparison).matched = none) ∧
    (pyIn [charCross] comparison = false → (renderComparison comparison).missing = none) ∧
    (pyIn [charBulb] comparison = false → (renderComparison comparison).extra = none) ∧
    (pyIn [charChart] comparison = false → (renderComparison comparison).score = none) ∧
    (pyIn [charCheck] comparison = true →
      (renderComparison comparison).matched = some (matchedSection comparison)) ∧
    (pyIn [charCross] comparison = true →
      (renderComparison comparison).missing = some (missingSection comparison)) ∧
    (pyIn [charBulb] comparison = true →
      (renderComparison comparison).extra = some (extraSection comparison)) ∧
    (pyIn [charChart] comparison = true →
      (renderComparison comparison).score = some (scoreSection comparison)) := by
  refine ⟨renderComparisonE_ok comparison, ?_, ?_, ?_, ?_, ?_, ?_, ?_, ?_⟩ <;>
    intro h <;> simp [renderComparison, h]

/-- C2 witness: the theorem applied to the concrete comparison "✅ m", in
which ❌, 💡 and 📊 are absent. -/
theorem comparison_missing_marker_safe_witness :
    renderComparisonE (strL "✅ m") = Except.ok (renderComparison (strL "✅ m")) ∧
    (pyIn [charCheck] (strL "✅ m") = false → (renderComparison (strL "✅ m")).matched = none) ∧
    (pyIn [charCross] (strL "✅ m") = false → (renderComparison (strL "✅ m")).missing = none) ∧
    (pyIn [charBulb] (strL "✅ m") = false → (renderComparison (strL "✅ m")).extra = none) ∧
    (pyIn [charChart] (strL "✅ m") = false → (renderComparison (strL "✅ m")).score = none) ∧
    (pyIn [charCheck] (strL "✅ m") = true →
      (renderComparison (strL "✅ m")).matched = some (matchedSection (strL "✅ m"))) ∧
    (pyIn [charCross] (strL "✅ m") = true →
      (renderComparison (strL "✅ m")).missing = some (missingSection (strL "✅ m"))) ∧
    (pyIn [charBulb] (strL "✅ m") = true →
      (renderComparison (strL "✅ m")).extra = some (extraSection (strL "✅ m"))) ∧
    (pyIn [charChart] (strL "✅ m") = true →
      (renderComparison (strL "✅ m")).score = some (scoreSection (strL "✅ m"))) :=
  comparison_missing_marker_safe (strL "✅ m") (Or.inr (Or.inl (by decide)))

/-! ### Lemmas about load_resume_docs and mainRun -/

theorem load_resume_docs_fs (pdfL docxL txtL : List Nat → List (List Char))
    (f : UploadedFile) :
    (load_resume_docs pdfL docxL txtL f).1 =
      [FsEvent.write (strL "temp_" ++ f.name) f.content] := by
  unfold load_resume_docs
  by_cases h1 : pyEndsWith (strL ".pdf") f.name <;>
    by_cases h2 : pyEndsWith (strL ".docx") f.name <;>
      by_cases h3 : pyEndsWith (strL ".txt") f.name <;>
        simp [h1, h2, h3]

theorem load_resume_docs_none (pdfL docxL txtL : List Nat → List (List Char))
    (f : UploadedFile)
    (h1 : pyEndsWith (strL ".pdf") f.name = false)
    (h2 : pyEndsWith (strL ".docx") f.name = false)
    (h3 : pyEndsWith (strL ".txt") f.name = false) :
    (load_resume_docs pdfL docxL txtL f).2 = none := by
  unfold load_resume_docs
  simp [h1, h2, h3]

theorem mainRun_eq_none {pdfL docxL txtL : List Nat → List (List Char)}
    {llm : List Char → List Char} {f : UploadedFile} {jd : List Char}
    (h : (load_resume_docs pdfL docxL txtL f).2 = none) :
    mainRun pdfL docxL txtL llm f jd =
      ([UiEvent.errorBox unsupportedMsg], (load_resume_docs pdfL docxL txtL f).1) := by
  simp only [mainRun]
  rw [h]

theorem mainRun_eq_empty {pdfL docxL txtL : List Nat → List (List Char)}
    {llm : List Char → List Char} {f : UploadedFile} {jd : List Char}
    (h : (load_resume_docs pdfL docxL txtL f).2 = some []) :
    mainRun pdfL docxL txtL llm f jd =
      ([UiEvent.errorBox unsupportedMsg], (load_resume_docs pdfL docxL txtL f).1) := by
  simp only [mainRun]
  rw [h]
  rfl

theorem mainRun_eq_run {pdfL docxL txtL : List Nat → List (List Char)}
    {llm : List Char → List Char} {f : UploadedFile} {jd : List Char}
    {docs : List (List Char)}
    (h : (load_resume_docs pdfL docxL txtL f).2 = some docs) (hne : docs ≠ []) :
    mainRun pdfL docxL txtL llm f jd =
      (UiEvent.preview (previewOf docs) ::
        displayResponse (llm (buildPrompt (List.intercalate (strL "\n\n") docs) jd)),
       (load_resume_docs pdfL docxL txtL f).1) := by
  simp only [mainRun]
  rw [h]
  cases docs with
  | nil => exact absurd rfl hne
  | cons d ds => rfl

theorem displayResponse_no_heading {content : List Char}
    (h : pyIn comparisonHeading content = false) :
    displayResponse content =
      [UiEvent.markdown (strL "## 📌 Extracted Resume Information"),
       UiEvent.markdown content] := by
  simp only [displayResponse]
  rw [partitionContent_of_not_in h]
  rfl

/-- C4: a file whose name ends in none of ".pdf", ".docx", ".txt" makes
`load_resume_docs` return the not-supported signal `None`, upon which `main`
shows the explicit "Unsupported file type." error as its only output and
halts (the run produces no further events and no exception). -/
theorem unsupported_extension_halts (pdfL docxL txtL : List Nat → List (List Char))
    (llm : List Char → List Char) (f : UploadedFile) (jd : List Char)
    (h1 : pyEndsWith (strL ".pdf") f.name = false)
    (h2 : pyEndsWith (strL ".docx") f.name = false)
    (h3 : pyEndsWith (strL ".txt") f.name = false) :
    (load_resume_docs pdfL docxL txtL f).2 = none ∧
    (mainRun pdfL docxL txtL llm f jd).1 = [UiEvent.errorBox unsupportedMsg] := by
  have hn := load_resume_docs_none pdfL docxL txtL f h1 h2 h3
  exact ⟨hn, by rw [mainRun_eq_none hn]⟩

/-- C4 witness: the theorem applied to an uploaded file named "x.png". -/
theorem unsupported_extension_halts_witness :
    (load_resume_docs (fun _ => []) (fun _ => []) (fun _ => [])
        ⟨strL "x.png", []⟩).2 = none ∧
    (mainRun (fun _ => []) (fun _ => []) (fun _ => []) (fun _ => [])
        ⟨strL "x.png", []⟩ []).1 = [UiEvent.errorBox unsupportedMsg] :=
  unsupported_extension_halts (fun _ => []) (fun _ => []) (fun _ => []) (fun _ => [])
    ⟨strL "x.png", []⟩ [] (by decide) (by decide) (by decide)

/-- C6: when the LLM response does not contain the literal comparison
heading, the whole response is rendered as the resume-info section and no
comparison section or subsection is rendered, whatever JD was supplied. -/
theorem no_heading_whole_response_is_resume (pdfL docxL txtL : List Nat → List (List Char))
    (llm : List Char → List Char) (f : UploadedFile) (jd : List Char)
    (docs : List (List Char))
    (hdocs : (load_resume_docs pdfL docxL txtL f).2 = some docs)
    (hne : docs ≠ [])
    (hresp : pyIn comparisonHeading
        (llm (buildPrompt (List.intercalate (strL "\n\n") docs) jd)) = false) :
    (mainRun pdfL docxL txtL llm f jd).1 =
      [UiEvent.preview (previewOf docs),
       UiEvent.markdown (strL "## 📌 Extracted Resume Information"),
       UiEvent.markdown (llm (buildPrompt (List.intercalate (strL "\n\n") docs) jd))] := by
  rw [mainRun_eq_run hdocs hne]
  show UiEvent.preview (previewOf docs) :: displayResponse _ = _
  rw [displayResponse_no_heading hresp]

/-- C6 witness: a concrete run whose LLM answer "hello" has no heading while
a JD "Python" was supplied. -/
theorem no_heading_whole_response_is_resume_witness :
    (mainRun (fun _ => []) (fun _ => []) (fun _ => [strL "John"])
        (fun _ => strL "hello") ⟨strL "a.txt", []⟩ (strL "Python")).1 =
      [UiEvent.preview (previewOf [strL "John"]),
       UiEvent.markdown (strL "## 📌 Extracted Resume Information"),
       UiEvent.markdown (strL "hello")] :=
  no_heading_whole_response_is_resume (fun _ => []) (fun _ => []) (fun _ => [strL "John"])
    (fun _ => strL "hello") ⟨strL "a.txt", []⟩ (strL "Python") [strL "John"]
    (by decide) (by decide) (by decide)

/-- C7: every run writes the uploaded bytes to the transient path
`temp_<filename>` (also for unsupported extensions, since the write precedes
the extension dispatch), and no run ever emits a delete event for any path:
the filesystem trace is always exactly that one write. -/
theorem temp_write_unconditional_no_delete (pdfL docxL txtL : List Nat → List (List Char))
    (llm : List Char → List Char) (f : UploadedFile) (jd : List Char) :
    (mainRun pdfL docxL txtL llm f jd).2 =
      [FsEvent.write (strL "temp_" ++ f.name) f.content] ∧
    ∀ pth : List Char, FsEvent.delete pth ∉ (mainRun pdfL docxL txtL llm f jd).2 := by
  have hfs : (mainRun pdfL docxL txtL llm f jd).2 = (load_resume_docs pdfL docxL txtL f).1 := by
    cases h : (load_resume_docs pdfL docxL txtL f).2 with
    | none => rw [mainRun_eq_none h]
    | some docs =>
      cases docs with
      | nil => rw [mainRun_eq_empty h]
      | cons d ds => rw [mainRun_eq_run h (by simp)]
  have hw := load_resume_docs_fs pdfL docxL txtL f
  refine ⟨hfs.trans hw, fun pth hmem => ?_⟩
  rw [hfs.trans hw] at hmem
  simp at hmem

/-- C9: when the response consists of text without the heading followed by
the heading itself (so the text after the heading is empty), the comparison
display is skipped entirely: the empty comparison string is falsy, so not
even the comparison header is rendered. -/
theorem heading_suffix_renders_nothing (a : List Char)
    (ha : pyIn comparisonHeading a = false) :
    displayResponse (a ++ comparisonHeading) =
      [UiEvent.markdown (strL "## 📌 Extracted Resume Information"),
       UiEvent.markdown a] := by
  have h := partitionContent_append (a := a) [] ha
  rw [List.append_nil] at h
  simp only [displayResponse]
  rw [h]
  rfl

/-- C9 witness: the theorem applied to the response "r" ++ heading. -/
theorem heading_suffix_renders_nothing_witness :
    displayResponse (strL "r" ++ comparisonHeading) =
      [UiEvent.markdown (strL "## 📌 Extracted Resume Information"),
       UiEvent.markdown (strL "r")] :=
  heading_suffix_renders_nothing (strL "r") (by decide)

/-- C10: if `load_resume_docs` succeeds with an empty segment list, the
falsiness test `if not docs` in `main` takes the same branch as the `None`
signal, so the program shows "Unsupported file type." and halts. -/
theorem empty_docs_unsupported_error (pdfL docxL txtL : List Nat → List (List Char))
    (llm : List Char → List Char) (f : UploadedFile) (jd : List Char)
    (h : (load_resume_docs pdfL docxL txtL f).2 = some []) :
    (mainRun pdfL docxL txtL llm f jd).1 = [UiEvent.errorBox unsupportedMsg] := by
  rw [mainRun_eq_empty h]

/-- C10 witness: a ".txt" upload whose decoder extracts nothing. -/
theorem empty_docs_unsupported_error_witness :
    (mainRun (fun _ => []) (fun _ => []) (fun _ => []) (fun _ => [])
        ⟨strL "a.txt", []⟩ []).1 = [UiEvent.errorBox unsupportedMsg] :=
  empty_docs_unsupported_error (fun _ => []) (fun _ => []) (fun _ => []) (fun _ => [])
    ⟨strL "a.txt", []⟩ [] (by decide)

end CVision
